import Mathlib

/-!
Verification development for the checkers rules engine (`src/board.py`,
`src/game.py`).  The board is a 64-cell array of signed integers
(positive = blue, negative = red, magnitude 2 = king, 0 = empty), with a
mutable side-to-move, a move-history stack, a no-kill move counter and
win/draw flags.  Mutation happens through `move`, `kill_piece`,
`make_king` and `undo_move`; the evaluator `score` and the terminal
detectors `is_draw` / `update_state` are embedded as pure state
transformers.

The Python history list is append-at-end with accesses `[-1]`, `[-2]`, ...;
here the history is kept most-recent-first, so Python index `-k`
corresponds to list position `k - 1`.

`move.py` and `utils.py` of the repository are not available; the move
generator and the `PieceTypes` enumeration are modelled from the spec and
marked as such below.
-/

set_option maxHeartbeats 1000000

namespace Checkers

/-- A board cell index, `0 ≤ i < 64` (`row = i / 8`, `col = i % 8`). -/
abbrev Cell := Fin 64

/-- Modelled from the spec: `utils.PieceTypes`, the two sides.  Positive
piece values are blue, negative are red. -/
inductive PieceTypes where
  | BLUE
  | RED
deriving DecidableEq, Repr, Inhabited

/-- Modelled from the spec: `PieceTypes.value`, the admissible piece
values of each side (magnitude 1 = regular piece, 2 = king). -/
def PieceTypes.value : PieceTypes → List ℤ
  | .BLUE => [1, 2]
  | .RED => [-1, -2]

/-- One history entry, Python list `[old, new, kills, made_king, mwk]`
where `mwk` is the `moves_without_kills` counter before the move. -/
structure HistEntry where
  old : Cell
  new : Cell
  kills : List (Cell × ℤ)
  made_king : Bool
  mwk : ℕ
deriving DecidableEq, Repr, Inhabited

/-- The board state: `Board.__board` (as a function from cell index to
piece value), `current_side`, `__made_moves` (most recent first),
`is_playing`, `winner`, `moves_without_kills`. -/
structure Board where
  cells : Cell → ℤ
  current_side : PieceTypes
  made_moves : List HistEntry
  is_playing : Bool
  winner : Option ℤ
  moves_without_kills : ℕ

theorem cells_eq_of_all {f g : Cell → ℤ}
    (h : (List.finRange 64).all (fun i => f i == g i) = true) : f = g := by
  funext i
  exact eq_of_beq (List.all_eq_true.mp h i (List.mem_finRange i))

theorem Board.ext_fields {a b : Board}
    (h1 : a.cells = b.cells) (h2 : a.current_side = b.current_side)
    (h3 : a.made_moves = b.made_moves) (h4 : a.is_playing = b.is_playing)
    (h5 : a.winner = b.winner)
    (h6 : a.moves_without_kills = b.moves_without_kills) : a = b := by
  cases a; cases b; simp_all

instance : DecidableEq Board := fun a b =>
  if h : (List.finRange 64).all (fun i => a.cells i == b.cells i) = true ∧
      a.current_side = b.current_side ∧ a.made_moves = b.made_moves ∧
      a.is_playing = b.is_playing ∧ a.winner = b.winner ∧
      a.moves_without_kills = b.moves_without_kills then
    isTrue (Board.ext_fields (cells_eq_of_all h.1) h.2.1 h.2.2.1 h.2.2.2.1
      h.2.2.2.2.1 h.2.2.2.2.2)
  else
    isFalse (by
      intro he
      subst he
      exact h ⟨List.all_eq_true.mpr (fun i _ => beq_self_eq_true _), rfl, rfl, rfl, rfl, rfl⟩)

/-- Write one cell of the board array (`self.__board[c] = v`). -/
def setCell (f : Cell → ℤ) (c : Cell) (v : ℤ) : Cell → ℤ :=
  fun i => if i = c then v else f i

theorem setCell_same (f : Cell → ℤ) (c : Cell) (v : ℤ) : setCell f c v c = v := by
  simp [setCell]

theorem setCell_other (f : Cell → ℤ) {c i : Cell} (v : ℤ) (h : i ≠ c) :
    setCell f c v i = f i := by
  simp [setCell, h]

theorem setCell_idem (f : Cell → ℤ) (c : Cell) (v w : ℤ) :
    setCell (setCell f c v) c w = setCell f c w := by
  funext i; by_cases h : i = c <;> simp [setCell, h]

theorem setCell_self (f : Cell → ℤ) {c : Cell} {v : ℤ} (h : f c = v) :
    setCell f c v = f := by
  funext i; by_cases hi : i = c <;> simp [setCell, hi, h.symm]

/-- `Board.board`: the cell array as a plain list (the Python property
returns `self.__board.tolist()`). -/
def Board.board (b : Board) : List ℤ :=
  (List.finRange 64).map b.cells

/-- `Board.all_pieces`: the `(piece, index)` pairs of all non-empty
cells, in index order (`np.where(self.__board != 0)`). -/
def Board.all_pieces (b : Board) : List (ℤ × Cell) :=
  ((List.finRange 64).filter (fun i => b.cells i ≠ 0)).map (fun i => (b.cells i, i))

/-- The closed set of validation failures (Python `IndexError`s). -/
inductive MoveErr where
  | occupiedDest
  | missingPiece
  | notEdgeRow
  | emptyHistory
deriving DecidableEq, Repr

instance : DecidableEq (Except MoveErr Board) := fun a b =>
  match a, b with
  | .error e1, .error e2 =>
    if h : e1 = e2 then isTrue (by rw [h]) else isFalse (by intro he; cases he; exact h rfl)
  | .ok b1, .ok b2 =>
    if h : b1 = b2 then isTrue (by rw [h]) else isFalse (by intro he; cases he; exact h rfl)
  | .error _, .ok _ => isFalse (by intro he; cases he)
  | .ok _, .error _ => isFalse (by intro he; cases he)

/-- `Board.move(old_index, new_index)`: relocates a piece, logs a fresh
history entry, increments `moves_without_kills` and flips the side to
move.  Raises on an occupied destination or a missing source piece. -/
def Board.move (b : Board) (old_index new_index : Cell) : Except MoveErr Board :=
  if b.cells new_index ≠ 0 then .error .occupiedDest
  else if b.cells old_index = 0 then .error .missingPiece
  else
    let piece := b.cells old_index
    .ok { b with
      cells := setCell (setCell b.cells old_index 0) new_index piece
      made_moves := ⟨old_index, new_index, [], false, b.moves_without_kills⟩ :: b.made_moves
      moves_without_kills := b.moves_without_kills + 1
      current_side := if b.current_side = PieceTypes.BLUE then PieceTypes.RED else PieceTypes.BLUE }

/-- `Board.kill_piece(index)`: records `(index, piece)` on the newest
history entry, zeroes `moves_without_kills` and empties the cell.  Raises
on an empty cell; accessing `__made_moves[-1]` on an empty history is the
Python `IndexError`, raised before any mutation. -/
def Board.kill_piece (b : Board) (index : Cell) : Except MoveErr Board :=
  if b.cells index = 0 then .error .missingPiece
  else
    match b.made_moves with
    | [] => .error .emptyHistory
    | top :: rest =>
      .ok { b with
        cells := setCell b.cells index 0
        made_moves := { top with kills := top.kills ++ [(index, b.cells index)] } :: rest
        moves_without_kills := 0 }

/-- `Board.make_king(index)`: doubles the piece value at an edge-row cell
and sets the newest history entry's promotion flag.  Python raises
`IndexError` on a non-edge row or an empty cell; with an empty history the
write to `__made_moves[-1]` raises after the cell write — that partial
case is modelled as an error and is excluded by hypothesis in the
theorems below, which only use non-empty histories. -/
def Board.make_king (b : Board) (index : Cell) : Except MoveErr Board :=
  if ¬((index : ℕ) / 8 = 0 ∨ (index : ℕ) / 8 = 7) then .error .notEdgeRow
  else if b.cells index = 0 then .error .missingPiece
  else
    match b.made_moves with
    | [] => .error .emptyHistory
    | top :: rest =>
      .ok { b with
        cells := setCell b.cells index (b.cells index * 2)
        made_moves := { top with made_king := true } :: rest }

/-- `Board.undo_move()`: pops the newest history entry, un-promotes
(`// 2`, floor division), restores the captured pieces, moves the piece
back, restores the counter and flips the side back. -/
def Board.undo_move (b : Board) : Except MoveErr Board :=
  match b.made_moves with
  | [] => .error .emptyHistory
  | last :: rest =>
    let c1 := if last.made_king then setCell b.cells last.new ((b.cells last.new).fdiv 2) else b.cells
    let c2 := last.kills.foldl (fun acc ip => setCell acc ip.1 ip.2) c1
    let piece := c2 last.new
    let c3 := setCell (setCell c2 last.new 0) last.old piece
    .ok { b with
      cells := c3
      made_moves := rest
      moves_without_kills := last.mwk
      current_side := if b.current_side = PieceTypes.BLUE then PieceTypes.RED else PieceTypes.BLUE }

/-- `Board.clear()`: empties the board without touching status. -/
def Board.clear (b : Board) : Board :=
  { b with cells := fun _ => 0 }

/-- `Board.hash()`: `str(self.board)`, the Python string representation
of the cell list. -/
def pyReprIntList (l : List ℤ) : String :=
  "[" ++ String.intercalate ", " (l.map toString) ++ "]"

def Board.hash (b : Board) : String :=
  pyReprIntList b.board

/-! ### Move generation

`src/move.py` is not part of the available sources; the two generator
entry points `generate_sliding_moves` and `generate_attacking_moves` and
the `Move` value type are modelled from the spec (§4.2, §4.3). -/

/-- Modelled from the spec: the immutable `Move` descriptor — origin,
destination, ordered `(cell, piece)` capture list and promotion flag
(`move.py` is missing).  The Python field written `end` is `endCell`
here. -/
structure Move where
  start : Cell
  endCell : Cell
  kills : List (Cell × ℤ)
  make_king : Bool
deriving DecidableEq, Repr, Inhabited

/-- Modelled from the spec: the diagonal directions available to a piece
— two forward directions for a regular piece (blue moves toward row 0,
red toward row 7, matching the default layout), all four for a king
(`move.py` is missing). -/
def pieceDirs (piece : ℤ) : List (ℤ × ℤ) :=
  if piece = 1 then [(-1, -1), (-1, 1)]
  else if piece = -1 then [(1, -1), (1, 1)]
  else [(-1, -1), (-1, 1), (1, -1), (1, 1)]

/-- Modelled from the spec: the far edge row where a piece promotes
(row 0 for blue, row 7 for red). -/
def farEdgeRow (piece : ℤ) : ℤ :=
  if 0 < piece then 0 else 7

/-- Row/column coordinates back to a cell index, `none` when off the
board. -/
def toIndex (r c : ℤ) : Option Cell :=
  if h : 0 ≤ r ∧ r < 8 ∧ 0 ≤ c ∧ c < 8 then
    some ⟨(r * 8 + c).toNat, by omega⟩
  else none

/-- Whether a simple or capture move by `piece` onto row `r` raises the
promotion flag: only a regular piece promotes, on its far edge row. -/
def promotesAt (piece : ℤ) (r : ℤ) : Bool :=
  decide ((piece = 1 ∨ piece = -1) ∧ r = farEdgeRow piece)

/-- Modelled from the spec: `move.generate_sliding_moves(piece, start,
board)` — one diagonal step per available direction, legal iff the
destination is on the board and empty (`move.py` is missing). -/
def generate_sliding_moves (piece : ℤ) (start : Cell) (board : List ℤ) : List Move :=
  let r : ℤ := ((start : ℕ) / 8 : ℕ)
  let c : ℤ := ((start : ℕ) % 8 : ℕ)
  (pieceDirs piece).filterMap (fun d =>
    match toIndex (r + d.1) (c + d.2) with
    | none => none
    | some dest =>
      if board.getD (dest : ℕ) 0 = 0 then
        some { start := start, endCell := dest, kills := [],
               make_king := promotesAt piece (((dest : ℕ) / 8 : ℕ)) }
      else none)

/-- Modelled from the spec: the one-step captures available from `pos` —
per direction, an adjacent opposing piece not yet captured with an empty
cell beyond it; yields `(landing, (capturedCell, capturedPiece))`
(`move.py` is missing). -/
def attackSteps (piece : ℤ) (board : List ℤ) (captured : List (Cell × ℤ))
    (pos : Cell) : List (Cell × (Cell × ℤ)) :=
  let r : ℤ := ((pos : ℕ) / 8 : ℕ)
  let c : ℤ := ((pos : ℕ) % 8 : ℕ)
  (pieceDirs piece).filterMap (fun d =>
    match toIndex (r + d.1) (c + d.2), toIndex (r + 2 * d.1) (c + 2 * d.2) with
    | some mid, some land =>
      let mp := board.getD (mid : ℕ) 0
      if mp * piece < 0 ∧ (∀ ip ∈ captured, ip.1 ≠ mid) ∧ board.getD (land : ℕ) 0 = 0 then
        some (land, (mid, mp))
      else none
    | _, _ => none)

/-- Modelled from the spec: the recursive capture-chain search — extend
the chain by every available one-step capture, emit a `Move` for every
maximal chain; a captured piece is removed from consideration for the
rest of the chain.  Each step captures a piece, so chains are shorter
than 64 and the fuel (started at 64) never runs out (`move.py` is
missing). -/
def attackChainsAux : ℕ → ℤ → List ℤ → Cell → Cell → List (Cell × ℤ) → List Move
  | 0, _, _, _, _, _ => []
  | fuel + 1, piece, board, start0, pos, captured =>
    let steps := attackSteps piece board captured pos
    if steps.isEmpty then
      if captured.isEmpty then []
      else [{ start := start0, endCell := pos, kills := captured,
              make_king := promotesAt piece (((pos : ℕ) / 8 : ℕ)) }]
    else
      steps.flatMap (fun s => attackChainsAux fuel piece board start0 s.1 (captured ++ [s.2]))

/-- Modelled from the spec: `move.generate_attacking_moves(piece, start,
board)` — every maximal capture chain of the piece (`move.py` is
missing). -/
def generate_attacking_moves (piece : ℤ) (start : Cell) (board : List ℤ) : List Move :=
  attackChainsAux 64 piece board start start []

/-- The full legal move list of one piece as `update_state` computes it:
`piece_attack_moves + piece_sliding_moves`. -/
def piece_moves (piece : ℤ) (start : Cell) (board : List ℤ) : List Move :=
  generate_attacking_moves piece start board ++ generate_sliding_moves piece start board

/-! ### Draw, win and scoring -/

/-- `sorted(entry[:2])`: the unordered `(old, new)` pair of a history
entry, as a sorted pair. -/
def sortedPair (e : HistEntry) : ℕ × ℕ :=
  (min (e.old : ℕ) (e.new : ℕ), max (e.old : ℕ) (e.new : ℕ))

/-- The draw test of `Board.is_draw`: 40 moves without a kill, or — when
blue is to move — both sides each repeated the same unordered move three
times in a row over the last six history entries.  Python's `IndexError`
on a history shorter than six entries forces the result to `False`. -/
def Board.is_draw_compute (b : Board) : Bool :=
  let base := decide (40 ≤ b.moves_without_kills)
  if b.current_side = PieceTypes.BLUE then
    if b.made_moves.length < 6 then false
    else
      let g : ℕ → HistEntry := fun k => b.made_moves.getD k default
      base ||
        (decide (sortedPair (g 1) = sortedPair (g 3)) &&
          decide (sortedPair (g 3) = sortedPair (g 5)) &&
          decide (sortedPair (g 0) = sortedPair (g 2)) &&
          decide (sortedPair (g 2) = sortedPair (g 4)))
  else base

/-- `Board.is_draw()`: on a draw, records no winner and stops play;
returns the flag together with the (possibly updated) state. -/
def Board.is_draw (b : Board) : Bool × Board :=
  if b.is_draw_compute then (true, { b with winner := none, is_playing := false })
  else (false, b)

/-- `Board.update_state()`: if not drawn, scans the mover's pieces for a
legal move; finding none records the opposite side's representative piece
value as winner and stops play. -/
def Board.update_state (b : Board) : Board :=
  let r := b.is_draw
  if r.1 then r.2
  else if r.2.all_pieces.any (fun pi =>
      decide (pi.1 ∈ r.2.current_side.value) &&
        !(piece_moves pi.1 pi.2 r.2.board).isEmpty) then
    r.2
  else
    { r.2 with winner := some (r.2.current_side.value.headD 0 * -1), is_playing := false }

/-- The score values: `inf`, `-inf` or a finite number (modelled exactly
over ℚ). -/
inductive ScoreVal where
  | posInf
  | negInf
  | val (q : ℚ)
deriving DecidableEq, Repr

/-- `endgame_weight(materials)` from `Board.score`:
`1 - min(1, materials / 12)`. -/
def endgame_weight (materials : ℕ) : ℚ :=
  1 - min 1 ((materials : ℚ) * (1 / 12))

/-- The opponent of a side, as `Board.score` computes it. -/
def opponentOf (s : PieceTypes) : PieceTypes :=
  if s = PieceTypes.BLUE then PieceTypes.RED else PieceTypes.BLUE

/-- The material count `no_of_pieces` of `Board.score`:
`np.where(board > 0 if opponent == RED else board < 0)[0].size`. -/
def Board.score_material_count (b1 : Board) : ℕ :=
  let opponent := opponentOf b1.current_side
  ((List.finRange 64).filter (fun i =>
    if opponent = PieceTypes.RED then decide (0 < b1.cells i) else decide (b1.cells i < 0))).length

/-- The per-piece term of `Board.score`: `3 * kills + 2` per available
move, `+5` for a promoting move, minus the centralization penalty
`0.5 * weight * (max(3 - file, file - 4) + max(3 - rank, rank - 4))`.
The move list is `generate_sliding_moves + generate_attacking_moves`. -/
def piece_score (piece : ℤ) (start : Cell) (board : List ℤ) (weight : ℚ) : ℚ :=
  let all_moves := generate_sliding_moves piece start board ++ generate_attacking_moves piece start board
  let moves_part : ℚ := (all_moves.map (fun m =>
    (3 * (m.kills.length : ℚ) + 2 + if m.make_king then 5 else 0))).sum
  let file : ℤ := ((start : ℕ) % 8 : ℕ)
  let rank : ℤ := ((start : ℕ) / 8 : ℕ)
  let dist_from_center : ℚ :=
    ((max (3 - file) (file - 4) + max (3 - rank) (rank - 4) : ℤ) : ℚ) * (1 / 2) * weight
  moves_part - dist_from_center

/-- The non-terminal body of `Board.score` at a given endgame weight:
material term `sum(board) * 2 * weight`, plus/minus each piece's term by
side, all negated when red is to move.  (The unused Python local
`no_to_ignore = 20` is omitted.) -/
def Board.score_body (b1 : Board) (weight : ℚ) : ℚ :=
  let base : ℚ := ((b1.board.sum : ℤ) : ℚ) * 2 * weight
  let s := b1.all_pieces.foldl (fun acc pi =>
    if pi.1 ∈ PieceTypes.BLUE.value then acc + piece_score pi.1 pi.2 b1.board weight
    else acc - piece_score pi.1 pi.2 b1.board weight) base
  if b1.current_side = PieceTypes.RED then -s else s

/-- `Board.score`: refreshes terminal status via `update_state`, then
returns `±inf`/`0` on a finished game and the weighted heuristic
otherwise; the returned state is the one `update_state` left behind. -/
def Board.score (b : Board) : ScoreVal × Board :=
  let b1 := b.update_state
  let opponent := opponentOf b1.current_side
  if b1.is_playing = false then
    match b1.winner with
    | some w => if w ∈ opponent.value then (ScoreVal.negInf, b1) else (ScoreVal.posInf, b1)
    | none => (ScoreVal.val 0, b1)
  else
    (ScoreVal.val (b1.score_body (endgame_weight b1.score_material_count)), b1)

/-! ### Compound plays (`Move.play`) and move sequences -/

/-- The capture loop of `Move.play`: `board.kill_piece(c)` for each
captured cell in order. -/
def kill_list : List Cell → Board → Except MoveErr Board
  | [], b => .ok b
  | c :: cs, b => (b.kill_piece c).bind (kill_list cs)

/-- One compound turn played through the primitives, as `Move.play`
composes them: `move(from, to)`, then `kill_piece` on each captured cell
in order, then `make_king(to)` when the move promotes. -/
def play_compound (b : Board) (f t : Cell) (cs : List Cell) (promote : Bool) :
    Except MoveErr Board :=
  (b.move f t).bind fun b1 =>
    (kill_list cs b1).bind fun b2 =>
      if promote then b2.make_king t else .ok b2

/-- A sequence of consecutive `move` calls. -/
def apply_moves : List (Cell × Cell) → Board → Except MoveErr Board
  | [], b => .ok b
  | m :: ms, b => (b.move m.1 m.2).bind (apply_moves ms)

/-! ### Claims -/

/-- C2: `move(from, to)` raises an occupied-destination error when the
destination cell is non-empty (also when the origin is empty too), a
missing-piece error when the origin is empty; in either error case the
state is returned untouched (the embedding raises before constructing
any mutation, exactly as the Python checks precede every write).
Otherwise it relocates the piece, pushes the history entry
`(from, to, [], false, old moves_without_kills)`, increments the counter
and flips the side to move, leaving `is_playing`/`winner` alone. -/
theorem C2_move_validation (b : Board) (f t : Cell) :
    (b.cells t ≠ 0 → b.move f t = .error .occupiedDest) ∧
    (b.cells t = 0 → b.cells f = 0 → b.move f t = .error .missingPiece) ∧
    (b.cells t = 0 → b.cells f ≠ 0 →
      ∃ b2, b.move f t = .ok b2 ∧
        b2.cells f = 0 ∧ b2.cells t = b.cells f ∧
        (∀ j, j ≠ f → j ≠ t → b2.cells j = b.cells j) ∧
        b2.made_moves = ⟨f, t, [], false, b.moves_without_kills⟩ :: b.made_moves ∧
        b2.moves_without_kills = b.moves_without_kills + 1 ∧
        b2.current_side = (if b.current_side = PieceTypes.BLUE then PieceTypes.RED else PieceTypes.BLUE) ∧
        b2.is_playing = b.is_playing ∧ b2.winner = b.winner) := by
  refine ⟨fun h => by simp [Board.move, h], fun h1 h2 => by simp [Board.move, h1, h2], ?_⟩
  intro h1 h2
  have hft : f ≠ t := fun he => h2 (he ▸ h1)
  refine ⟨{ b with
      cells := setCell (setCell b.cells f 0) t (b.cells f)
      made_moves := ⟨f, t, [], false, b.moves_without_kills⟩ :: b.made_moves
      moves_without_kills := b.moves_without_kills + 1
      current_side := if b.current_side = PieceTypes.BLUE then PieceTypes.RED else PieceTypes.BLUE },
    by simp [Board.move, h1, h2], ?_, ?_, ?_, rfl, rfl, rfl, rfl, rfl⟩
  · show setCell (setCell b.cells f 0) t (b.cells f) f = 0
    rw [setCell_other _ _ hft, setCell_same]
  · exact setCell_same _ _ _
  · intro j hjf hjt
    show setCell (setCell b.cells f 0) t (b.cells f) j = b.cells j
    rw [setCell_other _ _ hjt, setCell_other _ _ hjf]

def bC2 : Board :=
  { cells := fun i => if (i : ℕ) = 5 then 1 else 0,
    current_side := .BLUE, made_moves := [], is_playing := true, winner := none,
    moves_without_kills := 3 }

theorem C2_witness :
    bC2.move 12 5 = .error .occupiedDest ∧
    bC2.move 20 30 = .error .missingPiece ∧
    ∃ b2, bC2.move 5 12 = .ok b2 ∧ b2.moves_without_kills = 4 ∧
      b2.current_side = PieceTypes.RED := by
  refine ⟨(C2_move_validation bC2 12 5).1 (by decide),
    (C2_move_validation bC2 20 30).2.1 (by decide) (by decide), ?_⟩
  obtain ⟨b2, hok, -, -, -, -, hm, hs, -, -⟩ :=
    (C2_move_validation bC2 5 12).2.2 (by decide) (by decide)
  exact ⟨b2, hok, by rw [hm]; decide, by rw [hs]; decide⟩

/-- C7: `make_king(cell)` fails when the cell's row is neither 0 nor 7,
fails when the cell is empty; otherwise (given the non-empty history the
callers guarantee) it doubles the piece value at the cell exactly once,
touches no other cell, and sets the promotion flag of the top history
entry. -/
theorem C7_promote_boundary (b : Board) (i : Cell) :
    (¬((i : ℕ) / 8 = 0 ∨ (i : ℕ) / 8 = 7) → b.make_king i = .error .notEdgeRow) ∧
    (((i : ℕ) / 8 = 0 ∨ (i : ℕ) / 8 = 7) → b.cells i = 0 → b.make_king i = .error .missingPiece) ∧
    (((i : ℕ) / 8 = 0 ∨ (i : ℕ) / 8 = 7) → b.cells i ≠ 0 →
      ∀ e rest, b.made_moves = e :: rest →
        ∃ b2, b.make_king i = .ok b2 ∧
          b2.cells i = b.cells i * 2 ∧
          (∀ j, j ≠ i → b2.cells j = b.cells j) ∧
          b2.made_moves = { e with made_king := true } :: rest) := by
  refine ⟨fun h => by simp [Board.make_king, h],
    fun h1 h2 => by simp [Board.make_king, h1, h2], ?_⟩
  intro h1 h2 e rest hmm
  refine ⟨{ b with
      cells := setCell b.cells i (b.cells i * 2)
      made_moves := { e with made_king := true } :: rest },
    by simp [Board.make_king, h1, h2, hmm], setCell_same _ _ _, ?_, rfl⟩
  intro j hj
  exact setCell_other _ _ hj

def bC7 : Board :=
  { cells := fun i => if (i : ℕ) = 3 ∨ (i : ℕ) = 20 then 1 else 0,
    current_side := .RED, made_moves := [⟨17, 3, [], false, 0⟩], is_playing := true,
    winner := none, moves_without_kills := 1 }

theorem C7_witness :
    bC7.make_king 20 = .error .notEdgeRow ∧
    bC7.make_king 5 = .error .missingPiece ∧
    ∃ b2, bC7.make_king 3 = .ok b2 ∧ b2.cells 3 = 2 ∧
      (b2.made_moves.headD default).made_king = true := by
  refine ⟨(C7_promote_boundary bC7 20).1 (by decide),
    (C7_promote_boundary bC7 5).2.1 (by decide) (by decide), ?_⟩
  obtain ⟨b2, hok, hc, -, hmm⟩ :=
    (C7_promote_boundary bC7 3).2.2 (by decide) (by decide) ⟨17, 3, [], false, 0⟩ [] rfl
  exact ⟨b2, hok, by rw [hc]; decide, by rw [hmm]; rfl⟩

/-- C9: the board hash depends on the 64-cell array alone — two states
with element-wise identical cell arrays hash identically, whatever their
history, side to move or status fields, i.e. however they were reached. -/
theorem C9_hash_path_independent (b1 b2 : Board) (h : ∀ i, b1.cells i = b2.cells i) :
    b1.hash = b2.hash := by
  have hb : b1.board = b2.board := List.map_congr_left (fun i _ => h i)
  unfold Board.hash
  rw [hb]

def bH1 : Board :=
  { cells := fun _ => 0, current_side := .BLUE, made_moves := [], is_playing := true,
    winner := none, moves_without_kills := 0 }

def bH2 : Board :=
  { cells := fun i => if (i : ℕ) = 99 then 5 else 0, current_side := .RED,
    made_moves := [⟨0, 9, [], false, 0⟩], is_playing := false, winner := some 1,
    moves_without_kills := 40 }

theorem C9_witness : bH1.hash = bH2.hash :=
  C9_hash_path_independent bH1 bH2 (by decide)

/-! ### C6: draw by attrition -/

theorem move_ok_counters {b b2 : Board} {f t : Cell} (h : b.move f t = .ok b2) :
    b2.moves_without_kills = b.moves_without_kills + 1 ∧
    b2.made_moves.length = b.made_moves.length + 1 := by
  unfold Board.move at h
  by_cases h1 : b.cells t ≠ 0
  · simp [h1] at h
  · by_cases h2 : b.cells f = 0
    · simp [h1, h2] at h
    · simp only [h1, h2, if_false, if_true, ite_false, ite_true] at h
      cases h
      exact ⟨rfl, by simp⟩

theorem apply_moves_counters {ms : List (Cell × Cell)} {b b2 : Board}
    (h : apply_moves ms b = .ok b2) :
    b2.moves_without_kills = b.moves_without_kills + ms.length ∧
    b2.made_moves.length = b.made_moves.length + ms.length := by
  induction ms generalizing b with
  | nil =>
    cases h
    exact ⟨rfl, rfl⟩
  | cons m ms ih =>
    unfold apply_moves at h
    cases hm : b.move m.1 m.2 with
    | error e => rw [hm] at h; cases h
    | ok b1 =>
      rw [hm] at h
      obtain ⟨hk1, hk2⟩ := move_ok_counters hm
      obtain ⟨ih1, ih2⟩ := ih h
      constructor
      · rw [ih1, hk1]; simp only [List.length_cons]; omega
      · rw [ih2, hk2]; simp only [List.length_cons]; omega

/-- C6: starting from any board, 40 consecutive (successful) `move`
calls with no intervening kill leave `moves_without_kills ≥ 40`, so
`is_draw()` returns `true`, records no winner and stops play. -/
theorem C6_draw_by_attrition (b b2 : Board) (ms : List (Cell × Cell))
    (hlen : ms.length = 40) (h : apply_moves ms b = .ok b2) :
    (b2.is_draw).1 = true ∧ (b2.is_draw).2.winner = none ∧
    (b2.is_draw).2.is_playing = false := by
  obtain ⟨hmwk, hhist⟩ := apply_moves_counters h
  have hge : 40 ≤ b2.moves_without_kills := by omega
  have hlen6 : ¬(b2.made_moves.length < 6) := by omega
  have hcomp : b2.is_draw_compute = true := by
    unfold Board.is_draw_compute
    by_cases hside : b2.current_side = PieceTypes.BLUE
    · simp [hside, hlen6, decide_eq_true hge]
    · simp [hside, decide_eq_true hge]
  unfold Board.is_draw
  rw [hcomp]
  exact ⟨rfl, rfl, rfl⟩

def bC6 : Board :=
  { cells := fun i => if (i : ℕ) = 36 then 1 else 0,
    current_side := .BLUE, made_moves := [], is_playing := true, winner := none,
    moves_without_kills := 0 }

def msC6 : List (Cell × Cell) :=
  (List.replicate 20 [((36 : Cell), (44 : Cell)), ((44 : Cell), (36 : Cell))]).flatten

def bC6Res : Board :=
  { cells := fun i => if (i : ℕ) = 36 then 1 else 0,
    current_side := .BLUE,
    made_moves := (List.range 40).map (fun j =>
      if j % 2 = 0 then ⟨(44 : Cell), (36 : Cell), [], false, 39 - j⟩
      else ⟨(36 : Cell), (44 : Cell), [], false, 39 - j⟩),
    is_playing := true, winner := none, moves_without_kills := 40 }

set_option maxRecDepth 40000 in
theorem C6_witness :
    apply_moves msC6 bC6 = .ok bC6Res ∧
    (bC6Res.is_draw).1 = true ∧ (bC6Res.is_draw).2.winner = none ∧
    (bC6Res.is_draw).2.is_playing = false :=
  ⟨by decide, C6_draw_by_attrition bC6 bC6Res msC6 (by decide) (by decide)⟩

/-! ### C5 / C10: no-move loss in `update_state` -/

theorem is_draw_of_not_compute {b : Board} (hd : b.is_draw_compute = false) :
    b.is_draw = (false, b) := by
  unfold Board.is_draw
  rw [hd]
  rfl

/-- The winner value `update_state` records: the representative piece
value of the opposite side. -/
theorem update_state_loss (b : Board) (hd : b.is_draw_compute = false)
    (hnone : b.all_pieces.any (fun pi =>
      decide (pi.1 ∈ b.current_side.value) &&
        !(piece_moves pi.1 pi.2 b.board).isEmpty) = false) :
    b.update_state =
      { b with winner := some (b.current_side.value.headD 0 * -1), is_playing := false } := by
  unfold Board.update_state
  rw [is_draw_of_not_compute hd]
  simp only [hnone]
  rfl

theorem update_state_continues (b : Board) (hd : b.is_draw_compute = false)
    (hsome : b.all_pieces.any (fun pi =>
      decide (pi.1 ∈ b.current_side.value) &&
        !(piece_moves pi.1 pi.2 b.board).isEmpty) = true) :
    b.update_state = b := by
  unfold Board.update_state
  rw [is_draw_of_not_compute hd]
  simp only [hsome]
  rfl

/-- C5: on a non-drawn board whose side to move owns at least one piece
but none of them has a simple or capture move, `update_state()` records
the opposite side as winner (its representative piece value) and stops
play; conversely, when some piece of the side to move has a legal move,
`update_state()` leaves a playing, winnerless board playing with no
winner. -/
theorem C5_no_move_loss (b : Board) (hd : b.is_draw_compute = false) :
    ((∃ pi ∈ b.all_pieces, pi.1 ∈ b.current_side.value) →
      (∀ pi ∈ b.all_pieces, pi.1 ∈ b.current_side.value → piece_moves pi.1 pi.2 b.board = []) →
      (b.update_state.winner = some (if b.current_side = PieceTypes.BLUE then (-1 : ℤ) else 1) ∧
        b.update_state.is_playing = false)) ∧
    ((∃ pi ∈ b.all_pieces, pi.1 ∈ b.current_side.value ∧ piece_moves pi.1 pi.2 b.board ≠ []) →
      b.is_playing = true → b.winner = none →
      (b.update_state.is_playing = true ∧ b.update_state.winner = none)) := by
  constructor
  · rintro ⟨pi0, hpi0, hmem0⟩ hall
    have hnone : b.all_pieces.any (fun pi =>
        decide (pi.1 ∈ b.current_side.value) &&
          !(piece_moves pi.1 pi.2 b.board).isEmpty) = false := by
      rw [List.any_eq_false]
      intro pi hpi
      simp only [Bool.and_eq_true, decide_eq_true_eq, Bool.not_eq_true',
        List.isEmpty_eq_false, not_and, not_not]
      intro hmem
      exact hall pi hpi hmem
    rw [update_state_loss b hd hnone]
    refine ⟨?_, rfl⟩
    cases hs : b.current_side <;> rfl
  · rintro ⟨pi0, hpi0, hmem0, hmv0⟩ hp hw
    have hsome : b.all_pieces.any (fun pi =>
        decide (pi.1 ∈ b.current_side.value) &&
          !(piece_moves pi.1 pi.2 b.board).isEmpty) = true := by
      rw [List.any_eq_true]
      exact ⟨pi0, hpi0, by
        simp only [Bool.and_eq_true, decide_eq_true_eq, Bool.not_eq_true',
          List.isEmpty_eq_false]
        exact ⟨hmem0, hmv0⟩⟩
    rw [update_state_continues b hd hsome]
    exact ⟨hp, hw⟩

def bC5lose : Board :=
  { cells := fun i => if (i : ℕ) = 0 then 1 else 0,
    current_side := .BLUE, made_moves := [], is_playing := true, winner := none,
    moves_without_kills := 0 }

def bC5play : Board :=
  { cells := fun i => if (i : ℕ) = 36 then 1 else 0,
    current_side := .BLUE, made_moves := [], is_playing := true, winner := none,
    moves_without_kills := 0 }

theorem C5_witness :
    (bC5lose.update_state.winner = some (-1) ∧ bC5lose.update_state.is_playing = false) ∧
    (bC5play.update_state.is_playing = true ∧ bC5play.update_state.winner = none) :=
  ⟨(C5_no_move_loss bC5lose (by decide)).1 (by decide) (by decide),
    (C5_no_move_loss bC5play (by decide)).2 (by decide) rfl rfl⟩

/-- C10: on a non-drawn board where no piece of the side to move is on
the board at all — for instance after `clear()` empties it — the
no-move-loss rule of `update_state()` still fires: the opposite side is
recorded as winner and play stops. -/
theorem C10_empty_mover_loses (b : Board) (hd : b.is_draw_compute = false)
    (hz : ∀ pi ∈ b.all_pieces, pi.1 ∉ b.current_side.value) :
    b.update_state.winner = some (if b.current_side = PieceTypes.BLUE then (-1 : ℤ) else 1) ∧
    b.update_state.is_playing = false := by
  have hnone : b.all_pieces.any (fun pi =>
      decide (pi.1 ∈ b.current_side.value) &&
        !(piece_moves pi.1 pi.2 b.board).isEmpty) = false := by
    rw [List.any_eq_false]
    intro pi hpi
    simp only [Bool.and_eq_true, decide_eq_true_eq, Bool.not_eq_true',
      List.isEmpty_eq_false, not_and, not_not]
    intro hmem
    exact absurd hmem (hz pi hpi)
  rw [update_state_loss b hd hnone]
  refine ⟨?_, rfl⟩
  cases hs : b.current_side <;> rfl

def bC10 : Board :=
  Board.clear
    { cells := fun i => if (i : ℕ) = 36 then 1 else if (i : ℕ) = 9 then -1 else 0,
      current_side := .BLUE, made_moves := [], is_playing := true, winner := none,
      moves_without_kills := 0 }

theorem C10_witness :
    bC10.update_state.winner = some (-1) ∧ bC10.update_state.is_playing = false :=
  C10_empty_mover_loses bC10 (by decide) (by decide)

/-! ### C8: terminal score values -/

theorem value_disjoint {s : PieceTypes} {w : ℤ} (h : w ∈ s.value) :
    w ∉ (opponentOf s).value := by
  cases s <;> simp [PieceTypes.value, opponentOf] at h ⊢ <;> omega

/-- C8: after `score`'s internal `update_state()` call, a finished game
scores `-inf` when the recorded winner belongs to the opponent of the
side to move, `+inf` when it belongs to the side to move itself, and `0`
when the game is over with no winner (a draw). -/
theorem C8_terminal_score (b : Board) (hend : b.update_state.is_playing = false) :
    ((∃ w, b.update_state.winner = some w ∧ w ∈ (opponentOf b.update_state.current_side).value) →
      (b.score).1 = ScoreVal.negInf) ∧
    ((∃ w, b.update_state.winner = some w ∧ w ∈ b.update_state.current_side.value) →
      (b.score).1 = ScoreVal.posInf) ∧
    (b.update_state.winner = none → (b.score).1 = ScoreVal.val 0) := by
  refine ⟨?_, ?_, ?_⟩
  · rintro ⟨w, hw, hmem⟩
    simp [Board.score, hend, hw, hmem]
  · rintro ⟨w, hw, hmem⟩
    simp [Board.score, hend, hw, value_disjoint hmem]
  · intro hw
    simp [Board.score, hend, hw]

def bC8lose : Board :=
  { cells := fun i => if (i : ℕ) = 0 then 1 else 0,
    current_side := .BLUE, made_moves := [], is_playing := true, winner := none,
    moves_without_kills := 0 }

def bC8win : Board :=
  { cells := fun i => if (i : ℕ) = 36 then 1 else 0,
    current_side := .BLUE, made_moves := [], is_playing := false, winner := some 1,
    moves_without_kills := 0 }

def bC8draw : Board :=
  { cells := fun i => if (i : ℕ) = 36 then 1 else 0,
    current_side := .RED, made_moves := [], is_playing := true, winner := none,
    moves_without_kills := 41 }

theorem C8_witness :
    (bC8lose.score).1 = ScoreVal.negInf ∧
    (bC8win.score).1 = ScoreVal.posInf ∧
    (bC8draw.score).1 = ScoreVal.val 0 :=
  ⟨(C8_terminal_score bC8lose (by decide)).1 (by decide),
    (C8_terminal_score bC8win (by decide)).2.1 (by decide),
    (C8_terminal_score bC8draw (by decide)).2.2 (by decide)⟩

/-! ### C3: the endgame weight's material count -/

/-- The number of pieces a side owns on the board, by sign (positive
cells are blue's, negative cells are red's). -/
def Board.material_of (b1 : Board) (s : PieceTypes) : ℕ :=
  ((List.finRange 64).filter (fun i =>
    match s with
    | .BLUE => decide (0 < b1.cells i)
    | .RED => decide (b1.cells i < 0))).length

/-- Following the claim's words for C3: the same score computation, but
with the endgame weight computed from the material count of the
*opponent* of the side to move. -/
def Board.score_claimC3 (b : Board) : ScoreVal :=
  let b1 := b.update_state
  let opponent := opponentOf b1.current_side
  if b1.is_playing = false then
    match b1.winner with
    | some w => if w ∈ opponent.value then ScoreVal.negInf else ScoreVal.posInf
    | none => ScoreVal.val 0
  else
    ScoreVal.val (b1.score_body (endgame_weight (b1.material_of opponent)))

def bC3 : Board :=
  { cells := fun i => if (i : ℕ) = 36 then 1 else 0,
    current_side := .BLUE, made_moves := [], is_playing := true, winner := none,
    moves_without_kills := 0 }

theorem bC3_slide : generate_sliding_moves 1 36 bC3.board =
    [⟨36, 27, [], false⟩, ⟨36, 29, [], false⟩] := by decide

theorem bC3_att : generate_attacking_moves 1 36 bC3.board = [] := by decide

theorem bC3_up : bC3.update_state = bC3 := by decide

theorem bC3_pieces : bC3.all_pieces = [(1, (36 : Cell))] := by decide

theorem bC3_sum : bC3.board.sum = 1 := by decide

theorem bC3_mc : bC3.score_material_count = 1 := by decide

theorem bC3_mo : bC3.material_of (opponentOf bC3.current_side) = 0 := by decide

theorem bC3_ps (w : ℚ) : piece_score 1 36 bC3.board w = 4 := by
  unfold piece_score
  rw [bC3_slide, bC3_att]
  simp [show ((36 : Cell) : ℕ) = 36 from rfl]
  norm_num

theorem bC3_body (w : ℚ) : bC3.score_body w = 2 * w + 4 := by
  unfold Board.score_body
  rw [bC3_pieces, bC3_sum]
  simp only [List.foldl_cons, List.foldl_nil]
  rw [bC3_ps]
  simp [PieceTypes.value, show bC3.current_side = PieceTypes.BLUE from rfl]

/-- C3 fails on the code: on `bC3` (blue to move with a single piece and
no red material, so the mover's material count is 1 and the opponent's
is 0) the score the code computes (it weights by the *mover's* count,
giving `2 * 11/12 + 4 = 35/6`) differs from the score the claim's weight
`1 - min(1, opponentMaterialCount / 12)` would give (`2 * 1 + 4 = 6`). -/
theorem C3_counterexample : (bC3.score).1 ≠ bC3.score_claimC3 := by
  have h1 : (bC3.score).1 = ScoreVal.val (bC3.score_body (endgame_weight 1)) := by
    simp [Board.score, bC3_up, bC3_mc, show bC3.is_playing = true from rfl]
  have h2 : bC3.score_claimC3 = ScoreVal.val (bC3.score_body (endgame_weight 0)) := by
    simp [Board.score_claimC3, bC3_up, bC3_mo, show bC3.is_playing = true from rfl]
  rw [h1, h2, bC3_body, bC3_body]
  have hw1 : endgame_weight 1 = 11 / 12 := by
    unfold endgame_weight
    rw [min_eq_right (by norm_num)]
    norm_num
  have hw0 : endgame_weight 0 = 1 := by
    unfold endgame_weight
    norm_num
  rw [hw1, hw0]
  intro h
  rw [ScoreVal.val.injEq] at h
  norm_num at h

theorem score_material_count_eq_mover (b1 : Board) :
    b1.score_material_count = b1.material_of b1.current_side := by
  cases hs : b1.current_side <;>
    simp [Board.score_material_count, Board.material_of, opponentOf, hs]

/-- C3 (amended): when the game is not over, `score` uses the endgame
weight `1 - min(1, moverMaterialCount / 12)` — the material counted is
that of the side to move (positive cells when blue moves, negative cells
when red moves), not the opponent's. -/
theorem C3_weight_uses_mover_material (b : Board)
    (h : b.update_state.is_playing = true) :
    (b.score).1 = ScoreVal.val
      (b.update_state.score_body
        (endgame_weight (b.update_state.material_of b.update_state.current_side))) := by
  rw [← score_material_count_eq_mover]
  simp [Board.score, h]

theorem C3_weight_witness :
    (bC3.score).1 = ScoreVal.val
      (bC3.update_state.score_body
        (endgame_weight (bC3.update_state.material_of bC3.update_state.current_side))) :=
  C3_weight_uses_mover_material bC3 (by decide)

/-! ### C4: what scoring does to the status fields -/

theorem is_draw_of_compute {b : Board} (hd : b.is_draw_compute = true) :
    b.is_draw = (true, { b with winner := none, is_playing := false }) := by
  unfold Board.is_draw
  rw [hd]
  rfl

theorem update_state_mwk (b : Board) :
    b.update_state.moves_without_kills = b.moves_without_kills := by
  unfold Board.update_state
  cases hd : b.is_draw_compute with
  | false =>
    rw [is_draw_of_not_compute hd]
    dsimp only
    split
    · rfl
    · split <;> rfl
  | true =>
    rw [is_draw_of_compute hd]
    dsimp only
    split
    · rfl
    · split <;> rfl

theorem score_snd (b : Board) : (b.score).2 = b.update_state := by
  unfold Board.score
  dsimp only
  split
  · split
    · split <;> rfl
    · rfl
  · rfl

def bC4 : Board :=
  { cells := fun i => if (i : ℕ) = 0 then 1 else 0,
    current_side := .BLUE, made_moves := [], is_playing := true, winner := none,
    moves_without_kills := 0 }

/-- C4 fails on the code: evaluating `score` on `bC4` (a playing board
whose side to move is stuck) flips `is_playing` — `score` calls
`update_state()`, which mutates the status fields. -/
theorem C4_counterexample : (bC4.score).2.is_playing ≠ bC4.is_playing := by decide

/-- C4 (amended): evaluating `score` never changes
`moves_without_kills`, and it changes `is_playing`/`winner` only through
its internal `update_state()` call — in particular, whenever the board
is not drawn and the side to move still has a legal move, all three
status fields are left exactly as they were. -/
theorem C4_score_status_effect (b : Board) :
    (b.score).2.moves_without_kills = b.moves_without_kills ∧
    (b.is_draw_compute = false →
      (∃ pi ∈ b.all_pieces, pi.1 ∈ b.current_side.value ∧ piece_moves pi.1 pi.2 b.board ≠ []) →
      ((b.score).2.is_playing = b.is_playing ∧ (b.score).2.winner = b.winner)) := by
  rw [score_snd]
  refine ⟨update_state_mwk b, ?_⟩
  rintro hd ⟨pi0, hpi0, hmem0, hmv0⟩
  have hsome : b.all_pieces.any (fun pi =>
      decide (pi.1 ∈ b.current_side.value) &&
        !(piece_moves pi.1 pi.2 b.board).isEmpty) = true := by
    rw [List.any_eq_true]
    exact ⟨pi0, hpi0, by
      simp only [Bool.and_eq_true, decide_eq_true_eq, Bool.not_eq_true',
        List.isEmpty_eq_false]
      exact ⟨hmem0, hmv0⟩⟩
  rw [update_state_continues b hd hsome]
  exact ⟨rfl, rfl⟩

def bC4w : Board :=
  { cells := fun i => if (i : ℕ) = 36 then 1 else 0,
    current_side := .BLUE, made_moves := [], is_playing := true, winner := none,
    moves_without_kills := 7 }

theorem C4_witness :
    (bC4w.score).2.moves_without_kills = bC4w.moves_without_kills ∧
    (bC4w.score).2.is_playing = bC4w.is_playing ∧
    (bC4w.score).2.winner = bC4w.winner := by
  obtain ⟨h1, h2⟩ := C4_score_status_effect bC4w
  obtain ⟨h3, h4⟩ := h2 (by decide) (by decide)
  exact ⟨h1, h3, h4⟩

/-! ### C1: undo is the exact inverse of a compound play -/

theorem move_ok_elim {b b1 : Board} {f t : Cell} (h : b.move f t = .ok b1) :
    b.cells t = 0 ∧ b.cells f ≠ 0 ∧
    b1 = { b with
      cells := setCell (setCell b.cells f 0) t (b.cells f)
      made_moves := ⟨f, t, [], false, b.moves_without_kills⟩ :: b.made_moves
      moves_without_kills := b.moves_without_kills + 1
      current_side := if b.current_side = PieceTypes.BLUE then PieceTypes.RED else PieceTypes.BLUE } := by
  unfold Board.move at h
  by_cases h1 : b.cells t ≠ 0
  · simp [h1] at h
  · have h1' : b.cells t = 0 := not_not.mp h1
    by_cases h2 : b.cells f = 0
    · simp [h1, h2] at h
    · rw [if_neg h1, if_neg h2] at h
      injection h with h
      exact ⟨h1', h2, h.symm⟩

theorem kill_ok_elim {b b1 : Board} {c : Cell} {e : HistEntry} {rest : List HistEntry}
    (hh : b.made_moves = e :: rest) (h : b.kill_piece c = .ok b1) :
    b.cells c ≠ 0 ∧
    b1 = { b with
      cells := setCell b.cells c 0
      made_moves := { e with kills := e.kills ++ [(c, b.cells c)] } :: rest
      moves_without_kills := 0 } := by
  unfold Board.kill_piece at h
  by_cases h1 : b.cells c = 0
  · simp [h1] at h
  · rw [if_neg h1, hh] at h
    injection h with h
    exact ⟨h1, h.symm⟩

theorem make_king_ok_elim {b b1 : Board} {i : Cell} {e : HistEntry} {rest : List HistEntry}
    (hh : b.made_moves = e :: rest) (h : b.make_king i = .ok b1) :
    b.cells i ≠ 0 ∧
    b1 = { b with
      cells := setCell b.cells i (b.cells i * 2)
      made_moves := { e with made_king := true } :: rest } := by
  unfold Board.make_king at h
  by_cases h1 : ¬((i : ℕ) / 8 = 0 ∨ (i : ℕ) / 8 = 7)
  · simp [h1] at h
  · by_cases h2 : b.cells i = 0
    · simp [h1, h2] at h
    · rw [if_neg (not_not.mpr (not_not.mp h1)), if_neg h2, hh] at h
      injection h with h
      exact ⟨h2, h.symm⟩

theorem kill_list_ok {cs : List Cell} {s s1 : Board} {e : HistEntry} {rest : List HistEntry}
    (hh : s.made_moves = e :: rest) (h : kill_list cs s = .ok s1) :
    s1.cells = (fun i => if i ∈ cs then 0 else s.cells i) ∧
    s1.made_moves = { e with kills := e.kills ++ cs.map (fun c => (c, s.cells c)) } :: rest ∧
    s1.current_side = s.current_side ∧ s1.is_playing = s.is_playing ∧
    s1.winner = s.winner ∧
    s1.moves_without_kills = (if cs = [] then s.moves_without_kills else 0) := by
  suffices hsuff : ∀ cs (s s1 : Board) (e : HistEntry) (rest : List HistEntry),
      s.made_moves = e :: rest → kill_list cs s = .ok s1 →
      (s1.cells = (fun i => if i ∈ cs then 0 else s.cells i) ∧
        s1.made_moves = { e with kills := e.kills ++ cs.map (fun c => (c, s.cells c)) } :: rest ∧
        s1.current_side = s.current_side ∧ s1.is_playing = s.is_playing ∧
        s1.winner = s.winner ∧
        s1.moves_without_kills = (if cs = [] then s.moves_without_kills else 0)) ∧
      (∀ c ∈ cs, s.cells c ≠ 0) by
    exact (hsuff cs s s1 e rest hh h).1
  clear hh h
  intro cs
  induction cs with
  | nil =>
    intro s s1 e rest hh h
    rw [show kill_list [] s = .ok s by rfl] at h
    injection h with h
    subst h
    refine ⟨⟨by funext i; simp, by simpa using hh, rfl, rfl, rfl, by simp⟩, by simp⟩
  | cons c cs ih =>
    intro s s1 e rest hh h
    rw [show kill_list (c :: cs) s = (s.kill_piece c).bind (kill_list cs) from rfl] at h
    cases hk : s.kill_piece c with
    | error e2 => rw [hk] at h; simp [Except.bind] at h
    | ok s2 =>
      rw [hk] at h
      simp only [Except.bind] at h
      obtain ⟨hc, hs2⟩ := kill_ok_elim hh hk
      have hh2 : s2.made_moves = { e with kills := e.kills ++ [(c, s.cells c)] } :: rest := by
        rw [hs2]
      obtain ⟨⟨ih1, ih2, ih3, ih4, ih5, ih6⟩, ih7⟩ := ih s2 s1 _ rest hh2 h
      have hs2c : s2.cells = setCell s.cells c 0 := by rw [hs2]
      have hcnot : c ∉ cs := by
        intro hmem
        exact ih7 c hmem (by rw [hs2c]; exact setCell_same _ _ _)
      have hmapeq : cs.map (fun c2 => (c2, s2.cells c2)) = cs.map (fun c2 => (c2, s.cells c2)) := by
        refine List.map_congr_left (fun c2 hc2 => ?_)
        have hne : c2 ≠ c := fun he => hcnot (he ▸ hc2)
        rw [hs2c, setCell_other _ _ hne]
      refine ⟨⟨?_, ?_, by rw [ih3, hs2], by rw [ih4, hs2], by rw [ih5, hs2], ?_⟩, ?_⟩
      · rw [ih1]
        funext i
        by_cases hi : i ∈ cs
        · simp [hi, List.mem_cons]
        · by_cases hic : i = c
          · subst hic
            simp [hi, hs2c, setCell_same]
          · simp [hi, hic, hs2c, setCell_other _ _ hic]
      · rw [ih2, hmapeq]
        simp [List.append_assoc]
      · rw [ih6]
        rcases cs with - | ⟨c2, cs⟩
        · simp [hs2]
        · simp
      · intro c2 hc2
        rcases List.mem_cons.mp hc2 with he | hmem
        · subst he; exact hc
        · have hne : c2 ≠ c := fun he => hcnot (he ▸ hmem)
          have := ih7 c2 hmem
          rw [hs2c, setCell_other _ _ hne] at this
          exact this

theorem restore_foldl (cs : List Cell) (v : Cell → ℤ) :
    ∀ base : Cell → ℤ,
      (cs.map (fun c => (c, v c))).foldl (fun acc ip => setCell acc ip.1 ip.2) base =
        fun i => if i ∈ cs then v i else base i := by
  induction cs with
  | nil => intro base; funext i; simp
  | cons c cs ih =>
    intro base
    simp only [List.map_cons, List.foldl_cons]
    rw [ih]
    funext i
    by_cases h1 : i ∈ cs
    · simp [h1, List.mem_cons]
    · by_cases h2 : i = c
      · subst h2
        simp [h1, setCell_same]
      · simp [h1, h2, setCell, List.mem_cons]

/-- The heart of C1: a board whose cell array, history and side are
exactly what a successful compound play leaves behind is undone back to
the original board. -/
theorem undo_restores (b b1 : Board) (f t : Cell) (cs : List Cell) (mk : Bool)
    (hct : b.cells t = 0) (hcf : b.cells f ≠ 0)
    (hcells : b1.cells = (if mk then
        setCell (fun i => if i ∈ cs then 0 else setCell (setCell b.cells f 0) t (b.cells f) i) t
          ((fun i => if i ∈ cs then 0 else setCell (setCell b.cells f 0) t (b.cells f) i) t * 2)
      else (fun i => if i ∈ cs then 0 else setCell (setCell b.cells f 0) t (b.cells f) i)))
    (htnot : mk = true → t ∉ cs)
    (hhist : b1.made_moves =
      ⟨f, t, cs.map (fun c => (c, setCell (setCell b.cells f 0) t (b.cells f) c)), mk,
        b.moves_without_kills⟩ :: b.made_moves)
    (hside : b1.current_side =
      (if b.current_side = PieceTypes.BLUE then PieceTypes.RED else PieceTypes.BLUE))
    (hip : b1.is_playing = b.is_playing) (hw : b1.winner = b.winner) :
    b1.undo_move = .ok b := by
  have hft : t ≠ f := fun he => hcf (he ▸ hct)
  unfold Board.undo_move
  rw [hhist]
  dsimp only
  have hC1 : (if mk = true then
        setCell b1.cells t ((b1.cells t).fdiv 2)
      else b1.cells) =
      (fun i => if i ∈ cs then 0 else setCell (setCell b.cells f 0) t (b.cells f) i) := by
    cases mk with
    | false => simpa using hcells
    | true =>
      have htc : t ∉ cs := htnot rfl
      rw [if_pos rfl] at hcells
      rw [if_pos rfl]
      have hFt : (fun i => if i ∈ cs then 0
          else setCell (setCell b.cells f 0) t (b.cells f) i) t = b.cells f := by
        simp [htc, setCell_same]
      rw [hcells, setCell_same, hFt, Int.mul_fdiv_cancel _ (by norm_num), setCell_idem]
      exact setCell_self _ hFt
  rw [hC1, restore_foldl]
  have hC2 : (fun i => if i ∈ cs then setCell (setCell b.cells f 0) t (b.cells f) i
      else if i ∈ cs then 0 else setCell (setCell b.cells f 0) t (b.cells f) i) =
      setCell (setCell b.cells f 0) t (b.cells f) := by
    funext i
    by_cases hi : i ∈ cs <;> simp [hi]
  rw [hC2, setCell_same, setCell_idem]
  have h2 : setCell (setCell b.cells f 0) t 0 = setCell b.cells f 0 :=
    setCell_self _ (by rw [setCell_other _ _ hft]; exact hct)
  rw [h2, setCell_idem]
  refine congrArg Except.ok (Board.ext_fields (setCell_self _ rfl) ?_ rfl hip hw rfl)
  rw [hside]
  cases b.current_side <;> rfl

theorem play_compound_undo {b b1 : Board} {f t : Cell} {cs : List Cell} {promote : Bool}
    (h : play_compound b f t cs promote = .ok b1) :
    b1.undo_move = .ok b := by
  unfold play_compound at h
  cases hm : b.move f t with
  | error e => rw [hm] at h; simp [Except.bind] at h
  | ok bm =>
    rw [hm] at h
    simp only [Except.bind] at h
    obtain ⟨hct, hcf, hbm⟩ := move_ok_elim hm
    have hhm : bm.made_moves = ⟨f, t, [], false, b.moves_without_kills⟩ :: b.made_moves := by
      rw [hbm]
    have hbmc : bm.cells = setCell (setCell b.cells f 0) t (b.cells f) := by rw [hbm]
    cases hk : kill_list cs bm with
    | error e => rw [hk] at h; simp at h
    | ok bk =>
      rw [hk] at h
      simp only [] at h
      obtain ⟨k1, k2, k3, k4, k5, k6⟩ := kill_list_ok hhm hk
      have hkc : bk.cells =
          (fun i => if i ∈ cs then 0 else setCell (setCell b.cells f 0) t (b.cells f) i) := by
        rw [k1]
        funext i
        by_cases hi : i ∈ cs <;> simp [hi, hbmc]
      have hmapeq : cs.map (fun c => (c, bm.cells c)) =
          cs.map (fun c => (c, setCell (setCell b.cells f 0) t (b.cells f) c)) :=
        List.map_congr_left (fun c _ => by rw [hbmc])
      have hkhist : bk.made_moves =
          ⟨f, t, cs.map (fun c => (c, setCell (setCell b.cells f 0) t (b.cells f) c)), false,
            b.moves_without_kills⟩ :: b.made_moves := by
        rw [k2, hmapeq]
        rfl
      have hkside : bk.current_side =
          (if b.current_side = PieceTypes.BLUE then PieceTypes.RED else PieceTypes.BLUE) := by
        rw [k3, hbm]
      have hkip : bk.is_playing = b.is_playing := by rw [k4, hbm]
      have hkw : bk.winner = b.winner := by rw [k5, hbm]
      cases promote with
      | false =>
        rw [if_neg (by simp)] at h
        injection h with h
        subst h
        exact undo_restores b bk f t cs false hct hcf (by simpa using hkc)
          (by simp) hkhist hkside hkip hkw
      | true =>
        rw [if_pos rfl] at h
        obtain ⟨hkt, hb1⟩ := make_king_ok_elim hkhist h
        have htnot : t ∉ cs := by
          intro hmem
          apply hkt
          rw [hkc]
          simp [hmem]
        refine undo_restores b b1 f t cs true hct hcf ?_ (fun _ => htnot) ?_ ?_ ?_ ?_
        · rw [hb1]
          dsimp only
          rw [hkc]
          exact (if_pos rfl).symm
        · rw [hb1]
        · rw [hb1]
          exact hkside
        · rw [hb1]
          exact hkip
        · rw [hb1]
          exact hkw

/-- C1: for every board and every compound turn applied through the
primitives — `move(from, to)`, then `kill_piece(c)` for each captured
cell in order, then `make_king(to)` when the move promotes — a single
`undo_move()` restores the board hash, the `moves_without_kills` counter
and the side to move to exactly their original values (in fact the whole
state). -/
theorem C1_undo_inverts_compound_play (b b1 : Board) (f t : Cell) (cs : List Cell)
    (promote : Bool) (h : play_compound b f t cs promote = .ok b1) :
    ∃ b2, b1.undo_move = .ok b2 ∧ b2.hash = b.hash ∧
      b2.moves_without_kills = b.moves_without_kills ∧ b2.current_side = b.current_side :=
  ⟨b, play_compound_undo h, rfl, rfl, rfl⟩

def bC1 : Board :=
  { cells := fun i => if (i : ℕ) = 17 then 1 else if (i : ℕ) = 10 then -1 else 0,
    current_side := .BLUE, made_moves := [], is_playing := true, winner := none,
    moves_without_kills := 5 }

def bC1res : Board :=
  { cells := fun i => if (i : ℕ) = 3 then 2 else 0,
    current_side := .RED, made_moves := [⟨17, 3, [(10, -1)], true, 5⟩], is_playing := true,
    winner := none, moves_without_kills := 0 }

theorem C1_witness :
    play_compound bC1 17 3 [10] true = .ok bC1res ∧
    ∃ b2, bC1res.undo_move = .ok b2 ∧ b2.hash = bC1.hash ∧
      b2.moves_without_kills = bC1.moves_without_kills ∧
      b2.current_side = bC1.current_side := by
  have hplay : play_compound bC1 17 3 [10] true = .ok bC1res := by decide
  exact ⟨hplay, C1_undo_inverts_compound_play bC1 bC1res 17 3 [10] true hplay⟩

end Checkers
